import Mathlib

/-!
Shallow embedding of the wavefront program `wavefront_fst.cpp` from the
repository Degik/SPM-Train, together with theorems settling the frozen
claims about it.

Modelling conventions:
* `double` values are modelled by exact rationals `ℚ`; every concrete value
  appearing in a proved statement (quarters, halves, zero) is exactly
  representable in binary floating point, so the rational model agrees with
  the C++ arithmetic there.
* the N×N `matrix_d` (a `vector<vector<double>>` initialised to `0.0`) is
  modelled as a total map `ℕ → ℕ → ℚ` whose cells outside the allocated
  square are 0, matching the initial fill.
* fallible operations (out-of-bounds vector reads, iterating a `std::list`
  past its end) are modelled with `Option`, returning `none` where the C++
  has undefined behaviour.
* the float expression in `CalculateResources` is modelled with exact
  natural arithmetic and truncation (`Nat` division).  For every `uint16_t`
  input with `K ≥ 1` the float computation and the exact computation agree:
  in the branch taken when `K ≥ W` the exact value `W/2 + (W/2)·(K−1)/K`
  lies strictly between the integers `2·(W/2) − 1` and `2·(W/2)` with a gap
  of at least `1/K ≥ 1/65535`, far larger than the accumulated `float`
  rounding error, so the truncated results coincide.
-/

namespace Wavefront

/-- A matrix of exact rationals: `matrix_d` from the source, totalised with
default value 0 (the value every cell is initialised to). -/
abbrev Matrix := ℕ → ℕ → ℚ

/-- The C++ struct `Resources` with the two worker counts `Z`
(M-Diagonal-Stage workers) and `D` (Dot-Product-Stage workers). -/
structure Resources where
  Z : ℕ
  D : ℕ
deriving DecidableEq

/-- The function `CalculateResources(W, K, N)` from the source: if `K < W` both counts
are `W / 2` (integer division); otherwise `D` is the truncation of the
float expression `(W/2) + (W/2)·(K−1)/K` (here exact natural arithmetic,
see the module docstring) and `Z = W − D`.  `N` is a parameter of the C++
function but is never used by its body. -/
def CalculateResources (W K N : ℕ) : Resources :=
  if K < W then
    { Z := W / 2, D := W / 2 }
  else
    let D := W / 2 + W / 2 * (K - 1) / K
    { Z := W - D, D := D }

/-- The matrix produced by the `CreateMatrix` stage: an N×N matrix of zeros
whose diagonal is then set by `FillMatrix` to `M[m][m] = (m+1)/N` for
`m ∈ [0, N)`. -/
def FillMatrix (N : ℕ) : Matrix :=
  fun i j => if i = j ∧ i < N then ((i : ℚ) + 1) / (N : ℚ) else 0

/-- The vector `v1` built by `Diagonal_Emitter::svc` for entry index `m` of
band `K`: the loop pushes `M[m][m+i]` for `i = 0, …, K−1`. -/
def emitterV1 (M : Matrix) (m K : ℕ) : List ℚ :=
  (List.range K).map fun i => M m (m + i)

/-- The vector `v2` built by `Diagonal_Emitter::svc` for entry index `m` of
band `K`: the loop pushes `M[m+K][m+i]` for `i = 0, …, K−1`. -/
def emitterV2 (M : Matrix) (m K : ℕ) : List ℚ :=
  (List.range K).map fun i => M (m + K) (m + i)

/-- The matrix cells read by `Diagonal_Emitter::svc` while building `v1`
and `v2` for entry index `m` of band `K`, in loop order: iteration `i`
reads `M[m][m+i]` (for `v1`) and then `M[m+K][m+i]` (for `v2`). -/
def entryReadCells (m K : ℕ) : List (ℕ × ℕ) :=
  (List.range K).flatMap fun i => [(m, m + i), (m + K, m + i)]

/-- The band a cell `(r, c)` belongs to: the distance `|r − c|` from the
main diagonal (band 0 is the diagonal itself). -/
def bandOf (rc : ℕ × ℕ) : ℕ :=
  max rc.1 rc.2 - min rc.1 rc.2

/-- The slicing loop of `SplitVector`: chunk `i` has
`current_size = base_size + (i < remainder ? 1 : 0)` and is the slice of
`v` starting at the running offset `start`; `fuel` counts the remaining
iterations of the `for (i = 0; i < K; ++i)` loop.  The C++ slice
`vector_d(v.begin()+start, v.begin()+start+current_size)` is modelled by
`(v.drop start).take size`, which truncates where the C++ would read out
of range; every proved statement instantiates the arguments so that all
slices are in range (see `splitReadsLoop_bounded`). -/
def splitLoop (v : List ℚ) (base rem i start fuel : ℕ) : List (List ℚ) :=
  match fuel with
  | 0 => []
  | fuel + 1 =>
    let size := base + (if i < rem then 1 else 0)
    ((v.drop start).take size) :: splitLoop v base rem (i + 1) (start + size) fuel

/-- The function `SplitVector(v, D, K)` from the source: `base_size = D / K`,
`remainder = D % K`, then `K` slices are cut from `v` by the loop. -/
def SplitVector (v : List ℚ) (D K : ℕ) : List (List ℚ) :=
  splitLoop v (D / K) (D % K) 0 0 K

/-- The `(start, size)` windows read from the input vector by the
`SplitVector` loop, mirroring `splitLoop` chunk by chunk. -/
def splitReadsLoop (base rem i start fuel : ℕ) : List (ℕ × ℕ) :=
  match fuel with
  | 0 => []
  | fuel + 1 =>
    let size := base + (if i < rem then 1 else 0)
    (start, size) :: splitReadsLoop base rem (i + 1) (start + size) fuel

/-- The `(start, size)` windows of `SplitVector v D K` (independent of the
vector contents). -/
def splitReads (D K : ℕ) : List (ℕ × ℕ) :=
  splitReadsLoop (D / K) (D % K) 0 0 K

/-- The chunk sizes produced by the `SplitVector` loop, mirroring
`splitLoop`. -/
def sizesList (base rem i fuel : ℕ) : List ℕ :=
  match fuel with
  | 0 => []
  | fuel + 1 =>
    (base + if i < rem then 1 else 0) :: sizesList base rem (i + 1) fuel

/-- The total size of the remaining chunks of the `SplitVector` loop. -/
def sumSizes (base rem i fuel : ℕ) : ℕ :=
  match fuel with
  | 0 => 0
  | fuel + 1 =>
    (base + if i < rem then 1 else 0) + sumSizes base rem (i + 1) fuel

/-- The function `PartialDotProduct(v1, v2, size)` from the source: the loop adds
`v1[idx] * v2[idx]` for `idx = 0, …, size−1` to a running sum.  An index
beyond either vector is an out-of-range `operator[]` in the C++ (undefined
behaviour), modelled as `none`. -/
def PartialDotProduct (v1 v2 : List ℚ) : ℕ → Option ℚ
  | 0 => some 0
  | size + 1 =>
    match PartialDotProduct v1 v2 size, v1.get? size, v2.get? size with
    | some s, some a, some b => some (s + a * b)
    | _, _, _ => none

/-- The task tuples `(sub_v1, sub_v2, size)` sent by
`DotProduct_Emitter::svc`: both vectors are split with
`SplitVector(·, D, K)` (note the argument order of the call site), then the
loop `for (w = 0; w < D; w++)` walks the two `K`-element lists in step and
sends the `w`-th chunk pair with `size = sub_v1->size()`.  If `D > K` the
loop advances the iterators past the end of the lists (undefined
behaviour), modelled as `none`. -/
def DotProduct_Emitter_tasks (K D : ℕ) (v1 v2 : List ℚ) :
    Option (List (List ℚ × List ℚ × ℕ)) :=
  let sub1 := SplitVector v1 D K
  let sub2 := SplitVector v2 D K
  if D ≤ K then
    some (((sub1.zip sub2).take D).map fun p => (p.1, p.2, p.1.length))
  else
    none

/-- The partial results produced by the `DotProduct_Worker` nodes, one per
task tuple, in order. -/
def collectResults : List (List ℚ × List ℚ × ℕ) → Option (List ℚ)
  | [] => some []
  | t :: ts =>
    match PartialDotProduct t.1 t.2.1 t.2.2, collectResults ts with
    | some p, some ps => some (p :: ps)
    | _, _ => none

/-- The accumulation performed by `Sink::svc`: `sum += *task` over all
arriving partial results, starting from `0.0`. -/
def Sink_sum (ps : List ℚ) : ℚ :=
  ps.foldl (fun s t => s + t) 0

/-- The value handed to `cbrt` by `Sink::svc_end` for one entry: the sum of
the partial dot products of the task tuples that `DotProduct_Emitter`
produced from `(v1, v2)` with parameters `K` and `D`. -/
def entryPreCbrt (K D : ℕ) (v1 v2 : List ℚ) : Option ℚ :=
  match DotProduct_Emitter_tasks K D v1 v2 with
  | none => none
  | some tasks =>
    match collectResults tasks with
    | none => none
    | some ps => some (Sink_sum ps)

/-- The matrix update of `Sink::svc_end`: `element = cbrt(sum)` is written
to both `M[i][j]` and `M[j][i]`.  The cube root on doubles is modelled by
an arbitrary function `cbrt : ℚ → ℚ` supplied as a parameter. -/
def Sink_write (cbrt : ℚ → ℚ) (M : Matrix) (i j : ℕ) (sum : ℚ) : Matrix :=
  fun r c => if (r = i ∧ c = j) ∨ (r = j ∧ c = i) then cbrt sum else M r c

/-- The full mathematical dot product of two vectors.  Comparison
definition following the words of the spec (§4.3: sum over the whole
chunked pair), not the code. -/
def fullDot (v1 v2 : List ℚ) : ℚ :=
  ((v1.zip v2).map fun p => p.1 * p.2).sum

/-- The stages `main` can put into the FastFlow pipe: the `CreateMatrix`
stage (matrix allocation plus diagonal fill) and the per-band
`M_Diagonal_Stage(N, k, W, Z, D)`. -/
inductive PipeStage where
  | createMatrixStage (N W : ℕ)
  | mDiagonalStage (N K W Z D : ℕ)
deriving DecidableEq

/-- The stage list `main` actually builds: the loop
`for (k = 1; k < N; k++)` computes `CalculateResources(W, k, N)` and adds
one `M_Diagonal_Stage(N, k, W, Z, D)`.  The statement
`pipe.add_stage(s1)` for the `CreateMatrix` stage is commented out in the
source, so no `createMatrixStage` is ever added. -/
def mainStages (N W : ℕ) : List PipeStage :=
  (List.range' 1 (N - 1)).map fun k =>
    let res := CalculateResources W k N
    PipeStage.mDiagonalStage N k W res.Z res.D

/-- The result of the argument handling in `main`. -/
inductive ConfigResult where
  | usageError
  | proceed (stages : List PipeStage)
deriving DecidableEq

/-- The validation performed by `main`: the only check is `argc != 3`
(print usage and return −1); the parsed values `N` and `W` are never
validated. -/
def mainProgram (argc N W : ℕ) : ConfigResult :=
  if argc ≠ 3 then ConfigResult.usageError
  else ConfigResult.proceed (mainStages N W)

/-! ## Helper lemmas about the splitting loop -/

theorem splitLoop_eq_map (v : List ℚ) (b r f : ℕ) :
    ∀ i s, splitLoop v b r i s f =
      (splitReadsLoop b r i s f).map fun w => (v.drop w.1).take w.2 := by
  induction f with
  | zero => intro i s; rfl
  | succ f ih =>
    intro i s
    simp only [splitLoop, splitReadsLoop, List.map_cons]
    exact congrArg _ (ih (i + 1) _)

theorem splitLoop_length (v : List ℚ) (b r f : ℕ) :
    ∀ i s, (splitLoop v b r i s f).length = f := by
  induction f with
  | zero => intro i s; rfl
  | succ f ih =>
    intro i s
    simp only [splitLoop, List.length_cons, ih]

theorem sumSizes_ge (b r f : ℕ) :
    ∀ i, r ≤ i → sumSizes b r i f = f * b := by
  induction f with
  | zero => intro i _; simp [sumSizes]
  | succ f ih =>
    intro i h
    have hrec := ih (i + 1) (by omega)
    have hs : (f + 1) * b = f * b + b := by ring
    simp only [sumSizes, if_neg (Nat.not_lt.mpr h)]
    omega

theorem sumSizes_mid (b r f : ℕ) :
    ∀ i, i ≤ r → r ≤ i + f → sumSizes b r i f = f * b + (r - i) := by
  induction f with
  | zero => intro i h1 h2; simp [sumSizes]; omega
  | succ f ih =>
    intro i h1 h2
    by_cases hir : i < r
    · have hrec := ih (i + 1) (by omega) (by omega)
      have hs : (f + 1) * b = f * b + b := by ring
      simp only [sumSizes, if_pos hir]
      omega
    · have hrec := sumSizes_ge b r (f + 1) i (by omega)
      omega

theorem splitLoop_flatten (v : List ℚ) (b r f : ℕ) :
    ∀ i s, (splitLoop v b r i s f).flatten =
      (v.drop s).take (sumSizes b r i f) := by
  induction f with
  | zero => intro i s; rfl
  | succ f ih =>
    intro i s
    simp only [splitLoop, sumSizes, List.flatten_cons, ih, List.take_add,
      List.drop_drop]

theorem splitLoop_map_length (v : List ℚ) (b r f : ℕ) :
    ∀ i s, s + sumSizes b r i f ≤ v.length →
      (splitLoop v b r i s f).map List.length = sizesList b r i f := by
  induction f with
  | zero => intro i s _; rfl
  | succ f ih =>
    intro i s h
    simp only [sumSizes] at h
    simp only [splitLoop, sizesList, List.map_cons, List.cons.injEq]
    refine ⟨?_, ih (i + 1) _ (by omega)⟩
    simp only [List.length_take, List.length_drop]
    omega

theorem sizesList_eq (b r f : ℕ) :
    ∀ i, sizesList b r i f =
      (List.range f).map fun j => b + if i + j < r then 1 else 0 := by
  induction f with
  | zero => intro i; rfl
  | succ f ih =>
    intro i
    rw [List.range_succ_eq_map]
    simp only [sizesList, List.map_cons, List.map_map, List.cons.injEq]
    constructor
    · simp
    · rw [ih (i + 1)]
      refine List.map_congr_left fun j _ => ?_
      have hc : (i + 1 + j < r) = (i + (j + 1) < r) := by
        rw [show i + 1 + j = i + (j + 1) from by omega]
      simp [Function.comp, hc]

theorem splitReadsLoop_bounded (b r f : ℕ) :
    ∀ i s, ∀ w ∈ splitReadsLoop b r i s f,
      s ≤ w.1 ∧ w.1 + w.2 ≤ s + sumSizes b r i f := by
  induction f with
  | zero => intro i s w hw; simp [splitReadsLoop] at hw
  | succ f ih =>
    intro i s w hw
    simp only [splitReadsLoop, List.mem_cons] at hw
    rcases hw with rfl | hw
    · simp only [sumSizes]
      omega
    · have h := ih (i + 1) _ w hw
      simp only [sumSizes]
      omega

theorem sumSizes_split (L D : ℕ) (hD : 1 ≤ D) :
    sumSizes (L / D) (L % D) 0 D = L := by
  have hr : L % D < D := Nat.mod_lt _ (by omega)
  have h := sumSizes_mid (L / D) (L % D) D 0 (by omega) (by omega)
  have hdm : D * (L / D) + L % D = L := Nat.div_add_mod L D
  omega

theorem countP_range_ge (L : ℕ) :
    ∀ D, (List.range D).countP (fun j => decide (L ≤ j)) = D - L := by
  intro D
  induction D with
  | zero => simp
  | succ D ih =>
    rw [List.range_succ, List.countP_append, ih]
    by_cases h : L ≤ D <;> simp [List.countP_cons, h] <;> omega

theorem countP_range_lt (L : ℕ) :
    ∀ D, (List.range D).countP (fun j => decide (j < L)) = min L D := by
  intro D
  induction D with
  | zero => simp
  | succ D ih =>
    rw [List.range_succ, List.countP_append, ih]
    by_cases h : D < L <;> simp [List.countP_cons, h] <;> omega

theorem countP_isEmpty_not (l : List (List ℚ)) :
    l.countP (fun c => !c.isEmpty) =
      (l.map List.length).countP (fun n => decide (n ≠ 0)) := by
  rw [List.countP_map]
  exact List.countP_congr fun c _ => by cases c <;> simp

theorem countP_isEmpty (l : List (List ℚ)) :
    l.countP (fun c => c.isEmpty) =
      (l.map List.length).countP (fun n => decide (n = 0)) := by
  rw [List.countP_map]
  exact List.countP_congr fun c _ => by cases c <;> simp

theorem SplitVector_map_length (v : List ℚ) (D : ℕ) (hD : 1 ≤ D) :
    (SplitVector v v.length D).map List.length =
      (List.range D).map fun j =>
        v.length / D + if j < v.length % D then 1 else 0 := by
  rw [SplitVector, splitLoop_map_length v _ _ _ 0 0
    (by rw [sumSizes_split _ _ hD]; omega), sizesList_eq]
  simp

theorem SplitVector_flatten (v : List ℚ) (D : ℕ) (hD : 1 ≤ D) :
    (SplitVector v v.length D).flatten = v := by
  rw [SplitVector, splitLoop_flatten, sumSizes_split _ _ hD, List.drop_zero,
    List.take_length]

/-! ## Theorems settling the claims -/

/-- C1: the entry computation of band `K` does read a cell of band `K`
itself.  For every band `K ≥ 1` and entry index `m`, `Diagonal_Emitter`
reads the cell `(m+K, m)` (the first element pushed into `v2`, namely
`M[m+K][m]`), and that cell lies at distance exactly `K` from the
diagonal — it is the mirror of the very entry being computed, which no
earlier band has written. -/
theorem diagonalEmitter_reads_same_band (m K : ℕ) (hK : 1 ≤ K) :
    (m + K, m) ∈ entryReadCells m K ∧ bandOf (m + K, m) = K := by
  constructor
  · simp only [entryReadCells, List.mem_flatMap, List.mem_range]
    exact ⟨0, by omega, by simp⟩
  · simp only [bandOf]
    omega

/-- Witness for C1 at the concrete input `m = 0`, `K = 1`. -/
theorem diagonalEmitter_reads_same_band_witness :
    1 ≤ 1 ∧ ((0 + 1, 0) ∈ entryReadCells 0 1 ∧ bandOf (0 + 1, 0) = 1) :=
  ⟨by decide, diagonalEmitter_reads_same_band 0 1 (by decide)⟩

/-- C2: evaluation of the embedded code at `N = 4`.  The diagonal is filled
as the claim states, but for the band-1 entry `(0, 1)` the emitter builds
`v2 = [M[1][0]] = [0]` (not `[M[1][1]] = [1/2]`), so the sum handed to
`cbrt` is `0` — the entry becomes `cbrt 0 = 0`, not the cube root of the
claimed dot product `1/8`. -/
theorem band1_entry_N4 :
    FillMatrix 4 0 0 = 1/4 ∧ FillMatrix 4 1 1 = 1/2 ∧
    FillMatrix 4 2 2 = 3/4 ∧ FillMatrix 4 3 3 = 1 ∧
    emitterV1 (FillMatrix 4) 0 1 = [1/4] ∧
    emitterV2 (FillMatrix 4) 0 1 = [0] ∧
    entryPreCbrt 1 1 (emitterV1 (FillMatrix 4) 0 1)
      (emitterV2 (FillMatrix 4) 0 1) = some 0 ∧
    fullDot [FillMatrix 4 0 0] [FillMatrix 4 1 1] = 1/8 := by
  refine ⟨by norm_num [FillMatrix], by norm_num [FillMatrix],
    by norm_num [FillMatrix], by norm_num [FillMatrix], ?_, ?_, ?_, ?_⟩
  · norm_num [emitterV1, FillMatrix, List.range_succ]
  · norm_num [emitterV2, FillMatrix, List.range_succ]
  · norm_num [entryPreCbrt, DotProduct_Emitter_tasks, SplitVector, splitLoop,
      collectResults, PartialDotProduct, Sink_sum, emitterV1, emitterV2,
      FillMatrix, List.range_succ]
  · norm_num [fullDot, FillMatrix]

/-- C3: splitting a vector of length `L` into `D ≥ 1` chunks (the call
`SplitVector(v, L, D)`, whose second argument is the total size to
distribute and whose third is the chunk count) yields `D` chunks whose
in-order concatenation is exactly `v`, whose sizes sum to `L`, where the
first `L mod D` chunks have size `L/D + 1` and the rest have size `L/D`. -/
theorem splitVector_roundtrip (v : List ℚ) (D : ℕ) (hD : 1 ≤ D) :
    (SplitVector v v.length D).length = D ∧
    (SplitVector v v.length D).flatten = v ∧
    (SplitVector v v.length D).map List.length =
      (List.range D).map
        (fun j => v.length / D + if j < v.length % D then 1 else 0) ∧
    ((SplitVector v v.length D).map List.length).sum = v.length := by
  refine ⟨splitLoop_length v _ _ _ 0 0, SplitVector_flatten v D hD,
    SplitVector_map_length v D hD, ?_⟩
  rw [← List.length_flatten, SplitVector_flatten v D hD]

/-- Witness for C3 at `v = [1, 2, 3]`, `D = 2`. -/
theorem splitVector_roundtrip_witness :
    1 ≤ 2 ∧
    ((SplitVector [1, 2, 3] 3 2).length = 2 ∧
     (SplitVector [1, 2, 3] 3 2).flatten = [1, 2, 3] ∧
     (SplitVector [1, 2, 3] 3 2).map List.length =
       (List.range 2).map (fun j => 3 / 2 + if j < 3 % 2 then 1 else 0) ∧
     ((SplitVector [1, 2, 3] 3 2).map List.length).sum = 3) :=
  ⟨by decide, splitVector_roundtrip [1, 2, 3] 2 (by decide)⟩

/-- C4 counterexample: for `W = 3`, `K = 1` (and `N = 4`) the computed
split has `Z + D = 1 + 1 = 2 ≠ 3 = W`, because the `K < W` branch sets
both counts to the truncated half `W / 2`. -/
theorem calcResources_sum_counterexample :
    (CalculateResources 3 1 4).Z + (CalculateResources 3 1 4).D ≠ 3 := by
  decide

/-- C4 as amended: for every `W ≥ 2` and `K ≥ 1`, the split satisfies
`Z ≥ 1` and `D ≥ 1`; the budget equation `Z + D = W` holds whenever `W` is
even or `K ≥ W`, while for odd `W` with `K < W` the two truncated halves
sum to `W − 1`. -/
theorem calcResources_partition (W K N : ℕ) (hW : 2 ≤ W) (hK : 1 ≤ K) :
    1 ≤ (CalculateResources W K N).Z ∧ 1 ≤ (CalculateResources W K N).D ∧
    (CalculateResources W K N).Z + (CalculateResources W K N).D =
      if K < W ∧ W % 2 = 1 then W - 1 else W := by
  unfold CalculateResources
  by_cases h : K < W
  · by_cases hp : W % 2 = 1 <;> simp [h, hp] <;> omega
  · have hWK : W ≤ K := Nat.le_of_not_lt h
    have hW2 : 1 ≤ W / 2 := by omega
    have hlt : W / 2 ≤ K := by omega
    have hD : W / 2 * (K - 1) / K = W / 2 - 1 := by
      obtain ⟨a, ha⟩ : ∃ a, W / 2 = a + 1 := ⟨W / 2 - 1, by omega⟩
      obtain ⟨c, hc⟩ : ∃ c, K = c + 1 := ⟨K - 1, by omega⟩
      have hac : a ≤ c := by omega
      have hK1 : K - 1 = c := by omega
      have key : (a + 1) * c = (c - a) + a * (c + 1) := by
        zify [hac]
        ring
      rw [ha, hK1, hc, key, Nat.add_mul_div_right _ _ (by omega : 0 < c + 1),
        Nat.div_eq_of_lt (by omega)]
      omega
    simp only [h, false_and, if_false, hD]
    omega

/-- Witness for C4 at `W = 3`, `K = 5`, `N = 9`. -/
theorem calcResources_partition_witness :
    2 ≤ 3 ∧ 1 ≤ 5 ∧
    (1 ≤ (CalculateResources 3 5 9).Z ∧ 1 ≤ (CalculateResources 3 5 9).D ∧
     (CalculateResources 3 5 9).Z + (CalculateResources 3 5 9).D =
       if 5 < 3 ∧ 3 % 2 = 1 then 3 - 1 else 3) :=
  ⟨by decide, by decide, calcResources_partition 3 5 9 (by decide) (by decide)⟩

/-- C5: evaluation of the embedded code at a reachable failing input.  For
`N = 5`, `W = 2`, band `K = 3` the partitioner assigns `D = 1` reduction
worker; for the length-3 pair `v1 = v2 = [1, 1, 1]` the emitter then sends
one singleton chunk pair, so the sum handed to `cbrt` is `1`, while the
full dot product of the pair is `3` — the stored value is not the cube
root of the full dot product.  The final conjunct records the part of the
claim the `Sink` code does satisfy: one identical value is written to both
mirror cells of whatever matrix the sink references (which, in the code,
is the copy of `M` stored inside the task tuple, not the pipeline
matrix). -/
theorem sink_sum_not_full_dot :
    (CalculateResources 2 3 5).D = 1 ∧
    entryPreCbrt 3 1 [1, 1, 1] [1, 1, 1] = some 1 ∧
    fullDot [1, 1, 1] [1, 1, 1] = 3 ∧
    (1 : ℚ) ≠ 3 ∧
    ∀ (cbrt : ℚ → ℚ) (M : Matrix) (i j : ℕ) (s : ℚ),
      Sink_write cbrt M i j s i j = Sink_write cbrt M i j s j i := by
  refine ⟨by decide, ?_, by norm_num [fullDot], by norm_num, ?_⟩
  · norm_num [entryPreCbrt, DotProduct_Emitter_tasks, SplitVector, splitLoop,
      collectResults, PartialDotProduct, Sink_sum]
  · intro cbrt M i j s
    simp [Sink_write]

/-- C6: the pipeline built by `main` never contains the `CreateMatrix`
stage (the diagonal-fill stage): the statement adding it is commented out
in the source, so the stage list consists exclusively of band stages.  The
second conjunct evaluates the stage list at `N = 2`, `W = 2`: the first
and only stage is the band-1 stage, with `(Z, D)` recomputed from
`CalculateResources` — no diagonal fill precedes it. -/
theorem pipeline_missing_initializer :
    (∀ N W n w, PipeStage.createMatrixStage n w ∉ mainStages N W) ∧
    mainStages 2 2 = [PipeStage.mDiagonalStage 2 1 2 1 1] := by
  constructor
  · intro N W n w hmem
    simp only [mainStages, List.mem_map] at hmem
    obtain ⟨k, -, hk⟩ := hmem
    simp at hk
  · decide

/-- C7: oversubscribed split.  For a vector of length `L` and chunk count
`D > L` (the call `SplitVector(v, L, D)`), the splitter still yields `D`
chunks that concatenate to the input, exactly `L` of them non-empty (hence
at most `L`), `D − L ≥ 1` of them empty, and every `(start, size)` window
it slices stays inside the input vector. -/
theorem splitVector_oversubscription (v : List ℚ) (D : ℕ)
    (h : v.length < D) :
    (SplitVector v v.length D).length = D ∧
    (SplitVector v v.length D).flatten = v ∧
    (SplitVector v v.length D).countP (fun c => !c.isEmpty) = v.length ∧
    (SplitVector v v.length D).countP (fun c => c.isEmpty) = D - v.length ∧
    ∀ w ∈ splitReads v.length D, w.1 + w.2 ≤ v.length := by
  have hD : 1 ≤ D := by omega
  have hdiv : v.length / D = 0 := Nat.div_eq_of_lt h
  have hmod : v.length % D = v.length := Nat.mod_eq_of_lt h
  have hml := SplitVector_map_length v D hD
  rw [hdiv, hmod] at hml
  simp only [Nat.zero_add] at hml
  refine ⟨splitLoop_length v _ _ _ 0 0, SplitVector_flatten v D hD, ?_, ?_, ?_⟩
  · rw [countP_isEmpty_not, hml, List.countP_map]
    have hcong : List.countP ((fun n => decide (n ≠ 0)) ∘ fun j =>
          if j < v.length then 1 else 0) (List.range D) =
        List.countP (fun j => decide (j < v.length)) (List.range D) :=
      List.countP_congr fun j _ => by
        by_cases hj : j < v.length <;> simp [Function.comp, hj]
    rw [hcong, countP_range_lt]
    omega
  · rw [countP_isEmpty, hml, List.countP_map]
    have hcong : List.countP ((fun n => decide (n = 0)) ∘ fun j =>
          if j < v.length then 1 else 0) (List.range D) =
        List.countP (fun j => decide (v.length ≤ j)) (List.range D) :=
      List.countP_congr fun j _ => by
        by_cases hj : j < v.length <;> simp [Function.comp, hj] <;> omega
    rw [hcong, countP_range_ge]
  · intro w hw
    have hb := splitReadsLoop_bounded (v.length / D) (v.length % D) D 0 0 w hw
    rw [sumSizes_split _ _ hD] at hb
    omega

/-- Witness for C7 at `v = [1]`, `D = 3`. -/
theorem splitVector_oversubscription_witness :
    ([1] : List ℚ).length < 3 ∧
    ((SplitVector [1] 1 3).length = 3 ∧
     (SplitVector [1] 1 3).flatten = [1] ∧
     (SplitVector [1] 1 3).countP (fun c => !c.isEmpty) = 1 ∧
     (SplitVector [1] 1 3).countP (fun c => c.isEmpty) = 3 - 1 ∧
     ∀ w ∈ splitReads 1 3, w.1 + w.2 ≤ 1) :=
  ⟨by decide, splitVector_oversubscription [1] 3 (by decide)⟩

/-- C8 counterexample: with the correct argument count, `main` proceeds
for `N = 0` and `W = 1` — both below the bounds the claim says are
rejected — producing the (empty) stage list instead of failing with a
configuration error. -/
theorem main_accepts_invalid_config :
    mainProgram 3 0 1 = ConfigResult.proceed [] := by
  decide

/-- C8 as amended: the only validation `main` performs is on the argument
count; with exactly two user arguments it proceeds for every `N` and `W`
(no configuration error for `N < 1` or `W < 2`), and with any other
argument count it reports usage and stops. -/
theorem main_only_checks_argc (N W : ℕ) :
    mainProgram 3 N W = ConfigResult.proceed (mainStages N W) ∧
    ∀ argc, argc ≠ 3 → mainProgram argc N W = ConfigResult.usageError := by
  constructor
  · simp [mainProgram]
  · intro argc ha
    simp [mainProgram, ha]

/-- Witness for C8 at `N = 0`, `W = 1`, wrong argument count `argc = 2`. -/
theorem main_only_checks_argc_witness :
    mainProgram 3 0 1 = ConfigResult.proceed (mainStages 0 1) ∧
    (2 ≠ 3 ∧ mainProgram 2 0 1 = ConfigResult.usageError) :=
  ⟨(main_only_checks_argc 0 1).1, by decide,
    (main_only_checks_argc 0 1).2 2 (by decide)⟩

/-- C9 counterexample: the reduction path raises no dimension-mismatch
error — on the unequal-length pair `v1 = [1]`, `v2 = [1, 2]` (with
`K = D = 1`) it succeeds and returns a value, refuting the claimed
equivalence between failing and receiving unequal lengths. -/
theorem reducer_ignores_length_mismatch :
    entryPreCbrt 1 1 [1] [1, 2] = some 1 ∧
    ([1] : List ℚ).length ≠ ([1, 2] : List ℚ).length := by
  refine ⟨?_, by decide⟩
  norm_num [entryPreCbrt, DotProduct_Emitter_tasks, SplitVector, splitLoop,
    collectResults, PartialDotProduct, Sink_sum]

/-- C9 as amended: the code performs no length comparison (there is no
dimension-mismatch failure path), and the half of the claim that does hold
in the code: every pair the band emitter dispatches is built with equal
length `K`. -/
theorem dispatched_pairs_equal_length (M : Matrix) (m K : ℕ) :
    (emitterV1 M m K).length = K ∧ (emitterV2 M m K).length = K ∧
    (emitterV1 M m K).length = (emitterV2 M m K).length := by
  simp [emitterV1, emitterV2]

/-- C10: `CalculateResources` performs no validation of the worker budget:
for `W = 1` it returns `Z = 1, D = 0` and for `W = 0` it returns
`Z = 0, D = 0`, without signalling any error, and the zero-`D` partition
flows into the pipeline stage list (shown at `N = 2`, `W = 1`). -/
theorem calcResources_no_validation (N K : ℕ) (hK : 1 ≤ K) :
    CalculateResources 1 K N = ⟨1, 0⟩ ∧
    CalculateResources 0 K N = ⟨0, 0⟩ ∧
    mainStages 2 1 = [PipeStage.mDiagonalStage 2 1 1 1 0] := by
  refine ⟨?_, ?_, by decide⟩
  · have h : ¬K < 1 := by omega
    simp [CalculateResources, h]
  · have h : ¬K < 0 := by omega
    simp [CalculateResources, h]

/-- Witness for C10 at `K = 1`, `N = 4`. -/
theorem calcResources_no_validation_witness :
    1 ≤ 1 ∧
    (CalculateResources 1 1 4 = ⟨1, 0⟩ ∧ CalculateResources 0 1 4 = ⟨0, 0⟩ ∧
     mainStages 2 1 = [PipeStage.mDiagonalStage 2 1 1 1 0]) :=
  ⟨by decide, calcResources_no_validation 4 1 (by decide)⟩

end Wavefront
